import Mathlib

/-!
Verification of the ustar tar decoder (`src/lib.rs`).

The Rust source is shallowly embedded below: bytes are `Nat`s (< 256 in
practice), byte strings are `List Nat`, `Result<T, String>` is
`Except String T`, and a computation that can also `panic!` (the source
calls `.unwrap()` on fallible operations in a few places) is modelled by
`Res`, whose `crashed` constructor marks a panic as distinct from both a
returned error and success.
-/

set_option maxHeartbeats 4000000
set_option maxRecDepth 100000

deriving instance DecidableEq for Except

/-- Entry-type enumeration, from `enum TarFileType` in the source. -/
inductive TarFileType where
  | RegularFile
  | Link
  | SymTypeReserved
  | CharacterSpecial
  | BlockSpecial
  | Dir
  | FifoSpecial
  | ContTypeReserved
  | XHDType
  | XGLType
deriving DecidableEq

/-- The decoded fixed-layout header, from `struct TarHeader` in the source.
Byte-array fields are `List Nat`; the `u64` fields are the big-endian
integers deku decodes from 8 bytes.  The source's `prefix` field is named
`prfx` here. -/
structure TarHeader where
  name : List Nat
  mode : Nat
  uid : Nat
  gid : Nat
  size : List Nat
  mtime : List Nat
  chksum : Nat
  typeflag : Nat
  linkname : List Nat
  magic : List Nat
  version : List Nat
  uname : List Nat
  gname : List Nat
  devmajor : Nat
  devminor : Nat
  prfx : List Nat
deriving DecidableEq

/-- From `struct TarHeaderCastedFields` in the source (text fields are the
byte content of the decoded `&str`s). -/
structure TarHeaderCastedFields where
  name : List Nat
  uname : List Nat
  gname : List Nat
  size : Nat
  typeflag : TarFileType
deriving DecidableEq

/-- Outcome of running a piece of Rust code that returns `Result<α, String>`
but may also panic (`.unwrap()` on a failed operation): `ok`/`err` are the
two returned values, `crashed` is a panic. -/
inductive Res (α : Type) where
  | ok (val : α)
  | err (msg : String)
  | crashed
deriving DecidableEq

/-- UTF-8 continuation byte (`0x80..=0xBF`). -/
def isCont (b : Nat) : Bool := 128 ≤ b && b ≤ 191

/-- First continuation byte constraint of a 3-byte UTF-8 sequence: lead
`0xE0` forbids overlongs (`0xA0..0xBF`), lead `0xED` forbids surrogates
(`0x80..0x9F`), other leads take any continuation byte. -/
def utf8Lead3Ok (b b1 : Nat) : Bool :=
  if b = 224 then 160 ≤ b1 && b1 ≤ 191
  else if b = 237 then 128 ≤ b1 && b1 ≤ 159
  else isCont b1

/-- First continuation byte constraint of a 4-byte UTF-8 sequence: lead
`0xF0` forbids overlongs (`0x90..0xBF`), lead `0xF4` caps code points at
U+10FFFF (`0x80..0x8F`), other leads take any continuation byte. -/
def utf8Lead4Ok (b b1 : Nat) : Bool :=
  if b = 240 then 144 ≤ b1 && b1 ≤ 191
  else if b = 244 then 128 ≤ b1 && b1 ≤ 143
  else isCont b1

/-- For a non-ASCII lead byte `b`, the number of continuation bytes of one
valid UTF-8 sequence at the front of `b :: rest`, or `none` if invalid. -/
def utf8ContCount (b : Nat) (rest : List Nat) : Option Nat :=
  if b < 194 then none
  else if b ≤ 223 then
    match rest with
    | b1 :: _ => if isCont b1 then some 1 else none
    | [] => none
  else if b ≤ 239 then
    match rest with
    | b1 :: b2 :: _ => if utf8Lead3Ok b b1 && isCont b2 then some 2 else none
    | _ => none
  else if b ≤ 244 then
    match rest with
    | b1 :: b2 :: b3 :: _ =>
      if utf8Lead4Ok b b1 && isCont b2 && isCont b3 then some 3 else none
    | _ => none
  else none

/-- Fuelled UTF-8 scanner; one unit of fuel per decoded sequence.  Since a
sequence consumes at least one byte, fuel equal to the list length never
runs out. -/
def utf8ValidF : Nat → List Nat → Bool
  | _, [] => true
  | 0, _ :: _ => false
  | f + 1, b :: rest =>
    if b ≤ 127 then utf8ValidF f rest
    else
      match utf8ContCount b rest with
      | some k => utf8ValidF f (rest.drop k)
      | none => false

/-- Standard (RFC 3629) UTF-8 validity of a byte sequence, as checked by
Rust's `str::from_utf8` inside `CStr::to_str`: rejects overlong encodings,
surrogates and code points above U+10FFFF. -/
def utf8Valid (s : List Nat) : Bool := utf8ValidF s.length s

/-- `CStr::from_bytes_until_nul`: the bytes strictly before the first NUL,
or `none` when no NUL occurs in the slice. -/
def bytes_until_nul : List Nat → Option (List Nat)
  | [] => none
  | 0 :: _ => some []
  | b :: rest => (bytes_until_nul rest).map (fun s => b :: s)

/-- `fn slice_to_str` from the source: NUL-terminate, then UTF-8-validate. -/
def slice_to_str (input : List Nat) : Except String (List Nat) :=
  match bytes_until_nul input with
  | none => Except.error "biem"
  | some s => if utf8Valid s then Except.ok s else Except.error "invalid utf-8 sequence"

/-- Digit-accumulation loop of Rust's `u64::from_str_radix(_, 8)`: each byte
must be an ASCII octal digit, and each intermediate checked multiply/add
must stay below `2^64`. -/
def parseDigits : List Nat → Nat → Except String Nat
  | [], acc => Except.ok acc
  | b :: rest, acc =>
    if 48 ≤ b ∧ b ≤ 55 then
      if acc * 8 + (b - 48) < 2 ^ 64 then parseDigits rest (acc * 8 + (b - 48))
      else Except.error "number too large to fit in target type"
    else Except.error "invalid digit found in string"

/-- Rust's `u64::from_str_radix(s, 8)`: empty input is an error, a single
leading `'+'` is accepted, then octal digits with a `u64` overflow check. -/
def from_str_radix_octal (s : List Nat) : Except String Nat :=
  match s with
  | [] => Except.error "cannot parse integer from empty string"
  | c :: rest =>
    if c = 43 then
      if rest = [] then Except.error "invalid digit found in string"
      else parseDigits rest 0
    else parseDigits (c :: rest) 0

/-- `TarHeader::name` accessor. -/
def TarHeader.nameStr (h : TarHeader) : Except String (List Nat) :=
  slice_to_str h.name

/-- `TarHeader::uname` accessor. -/
def TarHeader.unameStr (h : TarHeader) : Except String (List Nat) :=
  slice_to_str h.uname

/-- `TarHeader::gname` accessor. -/
def TarHeader.gnameStr (h : TarHeader) : Except String (List Nat) :=
  slice_to_str h.gname

/-- `TarHeader::size`: octal text parse of the NUL-terminated size field. -/
def TarHeader.sizeVal (h : TarHeader) : Except String Nat :=
  match slice_to_str h.size with
  | Except.error e => Except.error e
  | Except.ok s => from_str_radix_octal s

/-- `TarHeader::typeflag`: the match over the type-flag byte. -/
def TarHeader.typeflagVal (h : TarHeader) : Except String TarFileType :=
  match h.typeflag with
  | 48 => Except.ok TarFileType.RegularFile
  | 0 => Except.ok TarFileType.RegularFile
  | 49 => Except.ok TarFileType.Link
  | 50 => Except.ok TarFileType.SymTypeReserved
  | 51 => Except.ok TarFileType.CharacterSpecial
  | 52 => Except.ok TarFileType.BlockSpecial
  | 53 => Except.ok TarFileType.Dir
  | 54 => Except.ok TarFileType.FifoSpecial
  | 55 => Except.ok TarFileType.ContTypeReserved
  | 120 => Except.ok TarFileType.XHDType
  | 103 => Except.ok TarFileType.XGLType
  | _ => Except.error "invalid typeflag header"

/-- `TarHeader::validate_magic`: the magic must be `b"ustar "` or `b"ustar\0"`. -/
def TarHeader.validate_magic (h : TarHeader) : Except String Unit :=
  if h.magic = [117, 115, 116, 97, 114, 32] ∨ h.magic = [117, 115, 116, 97, 114, 0] then
    Except.ok ()
  else Except.error "invalid magic bytes"

/-- `TarHeader::casted_fields`: the `?`-chain in source order
(name, uname, gname, size, typeflag). -/
def TarHeader.casted_fields (h : TarHeader) : Except String TarHeaderCastedFields :=
  match h.nameStr with
  | Except.error e => Except.error e
  | Except.ok name =>
    match h.unameStr with
    | Except.error e => Except.error e
    | Except.ok uname =>
      match h.gnameStr with
      | Except.error e => Except.error e
      | Except.ok gname =>
        match h.sizeVal with
        | Except.error e => Except.error e
        | Except.ok size =>
          match h.typeflagVal with
          | Except.error e => Except.error e
          | Except.ok typeflag =>
            Except.ok ⟨name, uname, gname, size, typeflag⟩

/-- Big-endian integer of a byte run (how deku reads the `u64` fields). -/
def beU64 (bs : List Nat) : Nat := bs.foldl (fun a b => a * 256 + b) 0

/-- The deku-derived `TarHeader::try_from` on one 512-byte block: fixed
offsets per the ustar layout comment in the source; always succeeds. -/
def headerFromBlock (block : List Nat) : TarHeader :=
  { name := block.take 100
    mode := beU64 ((block.drop 100).take 8)
    uid := beU64 ((block.drop 108).take 8)
    gid := beU64 ((block.drop 116).take 8)
    size := (block.drop 124).take 12
    mtime := (block.drop 136).take 12
    chksum := beU64 ((block.drop 148).take 8)
    typeflag := block.getD 156 0
    linkname := (block.drop 157).take 100
    magic := (block.drop 257).take 6
    version := (block.drop 263).take 2
    uname := (block.drop 265).take 32
    gname := (block.drop 297).take 32
    devmajor := beU64 ((block.drop 329).take 8)
    devminor := beU64 ((block.drop 337).take 8)
    prfx := (block.drop 345).take 155 }

/-- The `FileSystemImpl`/`FileWriter` trait pair: `σ` is the destination's
state (mutated by `save`), `ω` the writer type. -/
structure FSImpl (σ ω : Type) where
  openEntry : TarHeader → TarHeaderCastedFields → Except String ω
  writeBlock : ω → List Nat → Except String ω
  save : σ → ω → Except String σ

/-- `struct MemoryFile` from the source. -/
structure MemoryFile where
  name : List Nat
  meta : TarHeader
  data : List Nat
deriving DecidableEq

/-- `MemoryFileSystem`: captures every entry (name, header, content). -/
def memoryFs : FSImpl (List MemoryFile) MemoryFile :=
  { openEntry := fun tar casted => Except.ok ⟨casted.name, tar, []⟩
    writeBlock := fun w bytes => Except.ok ⟨w.name, w.meta, w.data ++ bytes⟩
    save := fun st w => Except.ok (st ++ [w]) }

/-- `NullFileSystem`: retains only the header of each entry, discards data. -/
def nullFs : FSImpl (List TarHeader) TarHeader :=
  { openEntry := fun tar _ => Except.ok tar
    writeBlock := fun w _ => Except.ok w
    save := fun st w => Except.ok (st ++ [w]) }

/-- A destination whose `save` (commit) always fails, used to observe what
`parse_tar` does when the destination's commit errors. -/
def errSaveFs : FSImpl (List MemoryFile) MemoryFile :=
  { openEntry := memoryFs.openEntry
    writeBlock := memoryFs.writeBlock
    save := fun _ _ => Except.error "save failed" }

/-- `ceil(n / 512)`, the number of 512-byte body blocks covering `n` bytes. -/
def ceilBlocks (n : Nat) : Nat := (n + 511) / 512

/-- The inner `while remaining_size > 0` loop of `parse_tar`: per iteration,
compute the chunk width from the old remaining size, read one 512-byte block
(`.unwrap()` panics on a short read), decrement (saturating), and hand the
first `current_blocksize` bytes to the writer. -/
def readBody {ω : Type} (wb : ω → List Nat → Except String ω) (stream : List Nat) (w : ω)
    (remaining : Nat) : Res (List Nat × ω) :=
  if h0 : remaining = 0 then Res.ok (stream, w)
  else if stream.length < 512 then Res.crashed
  else
    match wb w ((stream.take 512).take (if 512 ≤ remaining then 512 else remaining)) with
    | Except.error e => Res.err e
    | Except.ok w2 => readBody wb (stream.drop 512) w2 (remaining - 512)
termination_by remaining
decreasing_by omega

/-- The outer `loop` of `parse_tar`, with the consecutive-zero-block counter
`empty_blocks` explicit.  A short `read_exact` and a failed `save` are
`.unwrap()`ed in the source and hence crash; magic/field/open/write errors
are returned via `?`. -/
def parseLoop {σ ω : Type} (fs : FSImpl σ ω) (stream : List Nat) (empty_blocks : Nat)
    (st : σ) : σ × Res Unit :=
  if _hlen : stream.length < 512 then (st, Res.crashed)
  else
    if stream.take 512 = List.replicate 512 0 then
      if empty_blocks + 1 = 2 then (st, Res.ok ())
      else parseLoop fs (stream.drop 512) (empty_blocks + 1) st
    else
      match (headerFromBlock (stream.take 512)).validate_magic with
      | Except.error e => (st, Res.err e)
      | Except.ok _ =>
        match (headerFromBlock (stream.take 512)).casted_fields with
        | Except.error e => (st, Res.err e)
        | Except.ok casted =>
          match fs.openEntry (headerFromBlock (stream.take 512)) casted with
          | Except.error e => (st, Res.err e)
          | Except.ok w =>
            match (headerFromBlock (stream.take 512)).sizeVal with
            | Except.error _ => (st, Res.crashed)
            | Except.ok remaining =>
              match hrb : readBody fs.writeBlock (stream.drop 512) w remaining with
              | Res.err e => (st, Res.err e)
              | Res.crashed => (st, Res.crashed)
              | Res.ok (rest2, w2) =>
                match fs.save st w2 with
                | Except.error _ => (st, Res.crashed)
                | Except.ok st2 => parseLoop fs rest2 empty_blocks st2
termination_by stream.length
decreasing_by
  · simp only [List.length_drop]
    omega
  · have key : ∀ (n : Nat) (s : List Nat) (w' : ω) (r : List Nat) (w2' : ω),
        readBody fs.writeBlock s w' n = Res.ok (r, w2') → r.length ≤ s.length := by
      intro n
      induction n using Nat.strong_induction_on with
      | _ n ih =>
        intro s w' r w2' hr
        rw [readBody.eq_def] at hr
        split at hr
        · cases hr
          exact Nat.le_refl _
        · split at hr
          · cases hr
          · split at hr
            · cases hr
            · rename_i hwb0 hne hlt e w3 hwb
              have h2 := ih (n - 512) (by omega) _ _ _ _ hr
              simp only [List.length_drop] at h2
              omega
    have h1 := key _ _ _ _ _ hrb
    simp only [List.length_drop] at h1
    omega

/-- `pub fn parse_tar`: start the loop with a zero counter. -/
def parse_tar {σ ω : Type} (fs : FSImpl σ ω) (stream : List Nat) (st : σ) : σ × Res Unit :=
  parseLoop fs stream 0 st

/-- Draining the `FileNameIter` of `list_files_in_tar`: each stored header's
`name()` is re-decoded and `.expect`ed (a failure is a panic). -/
def expectNames : List TarHeader → Res (List (List Nat))
  | [] => Res.ok []
  | h :: t =>
    match h.nameStr with
    | Except.error _ => Res.crashed
    | Except.ok nm =>
      match expectNames t with
      | Res.ok nms => Res.ok (nm :: nms)
      | Res.err e => Res.err e
      | Res.crashed => Res.crashed

/-- `pub fn list_files_in_tar`: decode the whole archive into a
`NullFileSystem`, then yield the stored entry names in order. -/
def list_files_in_tar (stream : List Nat) : Res (List (List Nat)) :=
  match parse_tar nullFs stream [] with
  | (entries, Res.ok _) => expectNames entries
  | (_, Res.err e) => Res.err e
  | (_, Res.crashed) => Res.crashed

/-- Spec-side: ASCII octal digit `'0'..'7'`. -/
def isOctalDigit (b : Nat) : Bool := 48 ≤ b && b ≤ 55

/-- Spec-side: value of a run of ASCII octal digits, base 8. -/
def octalSpecVal (s : List Nat) : Nat := s.foldl (fun a b => a * 8 + (b - 48)) 0

/-- Spec-side: Rust's integer grammar strips at most one leading `'+'`. -/
def stripPlus : List Nat → List Nat
  | [] => []
  | c :: r => if c = 43 then r else c :: r

/-- Modelled from the spec: the type-flag table of §3/§4.1 — byte 0 and
ASCII `'0'` are RegularFile, `'1'..'7'` the seven further kinds in order,
`'x'`/`'g'` the extended-header kinds, everything else unmapped. -/
def typeflagTable (b : Nat) : Option TarFileType :=
  if b = 0 ∨ b = 48 then some TarFileType.RegularFile
  else if b = 49 then some TarFileType.Link
  else if b = 50 then some TarFileType.SymTypeReserved
  else if b = 51 then some TarFileType.CharacterSpecial
  else if b = 52 then some TarFileType.BlockSpecial
  else if b = 53 then some TarFileType.Dir
  else if b = 54 then some TarFileType.FifoSpecial
  else if b = 55 then some TarFileType.ContTypeReserved
  else if b = 120 then some TarFileType.XHDType
  else if b = 103 then some TarFileType.XGLType
  else none

/-- Modelled from the spec: a well-formed archive stream paired with the
names of its entries in stream order — a sequence of (header block whose
magic and typed fields are valid) followed by its 512-padded body, closed
by the two all-zero sentinel blocks. -/
inductive ValidArchive : List Nat → List (List Nat) → Prop where
  | sentinel : ValidArchive (List.replicate 1024 0) []
  | entry (block body rest : List Nat) (names : List (List Nat))
      (casted : TarHeaderCastedFields) :
      block.length = 512 →
      block ≠ List.replicate 512 0 →
      (headerFromBlock block).validate_magic = Except.ok () →
      (headerFromBlock block).casted_fields = Except.ok casted →
      body.length = 512 * ceilBlocks casted.size →
      ValidArchive rest names →
      ValidArchive (block ++ (body ++ rest)) (casted.name :: names)

/-- A concrete valid header block: name `"a"`, declared size `0` (field
`"0\0..."`), type flag 0 (regular file), magic `b"ustar\0"`. -/
def hdrA : List Nat :=
  (List.range 512).map fun i =>
    if i = 0 then 97
    else if i = 124 then 48
    else if i = 257 then 117
    else if i = 258 then 115
    else if i = 259 then 116
    else if i = 260 then 97
    else if i = 261 then 114
    else 0

/-- A concrete valid header block: name `"b"`, declared size `512` (field
`"1000\0..."`), type flag `'0'`, magic `b"ustar\0"`. -/
def hdrB512 : List Nat :=
  (List.range 512).map fun i =>
    if i = 0 then 98
    else if i = 124 then 49
    else if i = 125 then 48
    else if i = 126 then 48
    else if i = 127 then 48
    else if i = 156 then 48
    else if i = 257 then 117
    else if i = 258 then 115
    else if i = 259 then 116
    else if i = 260 then 97
    else if i = 261 then 114
    else 0

/-- The casted fields of `hdrA`. -/
def castedA : TarHeaderCastedFields := ⟨[97], [], [], 0, TarFileType.RegularFile⟩

/-- The casted fields of `hdrB512`. -/
def castedB : TarHeaderCastedFields := ⟨[98], [], [], 512, TarFileType.RegularFile⟩

/-- A concrete header block whose 12-byte size field starts with the
high-bit byte `0x80`, as the GNU binary-size extension would. -/
def hdrHi : List Nat :=
  (List.range 512).map fun i =>
    if i = 124 then 128
    else if i = 257 then 117
    else if i = 258 then 115
    else if i = 259 then 116
    else if i = 260 then 97
    else if i = 261 then 114
    else 0

theorem bytes_until_nul_eq (input : List Nat) :
    bytes_until_nul input =
      if input.contains 0 then some (input.takeWhile (fun b => b != 0)) else none := by
  induction input with
  | nil => simp [bytes_until_nul]
  | cons b rest ih =>
    cases b with
    | zero => simp [bytes_until_nul]
    | succ m =>
      rw [show bytes_until_nul ((m + 1) :: rest) =
          (bytes_until_nul rest).map (fun s => (m + 1) :: s) from rfl, ih]
      by_cases h0 : rest.contains 0 = true
      · simp [h0, List.takeWhile_cons]
      · simp [h0]

theorem slice_to_str_eq_ok (input s : List Nat) :
    slice_to_str input = Except.ok s ↔
      (input.contains 0 = true ∧ s = input.takeWhile (fun b => b != 0) ∧
        utf8Valid s = true) := by
  rw [slice_to_str, bytes_until_nul_eq]
  by_cases hc : input.contains 0 = true
  · rw [if_pos hc]
    dsimp only
    by_cases hv : utf8Valid (input.takeWhile (fun b => b != 0)) = true
    · rw [if_pos hv]
      constructor
      · intro h
        injection h with h
        subst h
        exact ⟨hc, rfl, hv⟩
      · rintro ⟨-, rfl, -⟩
        rfl
    · rw [if_neg hv]
      constructor
      · intro h
        simp at h
      · rintro ⟨-, rfl, h⟩
        exact absurd h hv
  · rw [if_neg hc]
    constructor
    · intro h
      simp at h
    · rintro ⟨h, -, -⟩
      exact absurd h hc

theorem slice_to_str_no_nul (input : List Nat) (h : input.contains 0 = false) :
    slice_to_str input = Except.error "biem" := by
  rw [slice_to_str, bytes_until_nul_eq, if_neg (by simp only [h]; simp)]

theorem slice_to_str_invalid_text (input : List Nat) (hc : input.contains 0 = true)
    (hv : utf8Valid (input.takeWhile (fun b => b != 0)) = false) :
    slice_to_str input = Except.error "invalid utf-8 sequence" := by
  rw [slice_to_str, bytes_until_nul_eq, if_pos hc]
  dsimp only
  rw [if_neg (by simp only [hv]; simp)]

theorem slice_to_str_after_nul (pre r r' : List Nat) :
    slice_to_str (pre ++ 0 :: r) = slice_to_str (pre ++ 0 :: r') := by
  have hkey : ∀ (x : List Nat), (pre ++ 0 :: x).contains 0 = true ∧
      (pre ++ 0 :: x).takeWhile (fun b => b != 0) = pre.takeWhile (fun b => b != 0) := by
    intro x
    constructor
    · induction pre with
      | nil => simp
      | cons a t ih => simp [List.contains_cons, ih]
    · induction pre with
      | nil => simp [List.takeWhile_cons]
      | cons a t ih =>
        by_cases ha : a = 0
        · simp [ha, List.takeWhile_cons]
        · simp [List.takeWhile_cons, ha, ih]
  rw [slice_to_str, slice_to_str, bytes_until_nul_eq, bytes_until_nul_eq,
    if_pos (hkey r).1, if_pos (hkey r').1, (hkey r).2, (hkey r').2]

theorem utf8ValidF_of_ascii (s : List Nat) :
    ∀ f : Nat, s.length ≤ f → (∀ b ∈ s, b ≤ 127) → utf8ValidF f s = true := by
  induction s with
  | nil =>
    intro f _ _
    rw [utf8ValidF]
  | cons b rest ih =>
    intro f hf h
    have hb : b ≤ 127 := h b (by simp)
    cases f with
    | zero => simp at hf
    | succ f' =>
      rw [utf8ValidF, if_pos hb]
      exact ih f' (by simp at hf; omega) (fun x hx => h x (by simp [hx]))

theorem utf8Valid_of_ascii (s : List Nat) (h : ∀ b ∈ s, b ≤ 127) : utf8Valid s = true :=
  utf8ValidF_of_ascii s s.length (Nat.le_refl _) h

theorem octal_foldl_ge (ds : List Nat) :
    ∀ acc : Nat, acc ≤ ds.foldl (fun a b => a * 8 + (b - 48)) acc := by
  induction ds with
  | nil => intro acc; simp
  | cons d rest ih =>
    intro acc
    simp only [List.foldl_cons]
    calc acc ≤ acc * 8 + (d - 48) := by omega
      _ ≤ _ := ih _

theorem parseDigits_eq_ok (ds : List Nat) :
    ∀ acc n : Nat,
      parseDigits ds acc = Except.ok n ↔
        (ds.all isOctalDigit = true ∧ n = ds.foldl (fun a b => a * 8 + (b - 48)) acc ∧
          (ds = [] ∨ n < 2 ^ 64)) := by
  induction ds with
  | nil =>
    intro acc n
    simp [parseDigits, eq_comm]
  | cons d rest ih =>
    intro acc n
    rw [parseDigits]
    by_cases hd : 48 ≤ d ∧ d ≤ 55
    · have hdig : isOctalDigit d = true := by
        unfold isOctalDigit
        simp only [Bool.and_eq_true, decide_eq_true_eq]
        exact hd
      rw [if_pos hd, List.all_cons, hdig, Bool.true_and, List.foldl_cons]
      by_cases hv : acc * 8 + (d - 48) < 2 ^ 64
      · rw [if_pos hv, ih]
        constructor
        · rintro ⟨h1, h2, h3⟩
          refine ⟨h1, h2, Or.inr ?_⟩
          rcases h3 with h3 | h3
          · subst h3
            rw [List.foldl_nil] at h2
            omega
          · exact h3
        · rintro ⟨h1, h2, h3⟩
          refine ⟨h1, h2, ?_⟩
          rcases h3 with h3 | h3
          · exact absurd h3 (List.cons_ne_nil d rest)
          · exact Or.inr h3
      · rw [if_neg hv]
        constructor
        · intro h
          simp at h
        · rintro ⟨h1, h2, h3⟩
          exfalso
          rcases h3 with h3 | h3
          · exact absurd h3 (List.cons_ne_nil d rest)
          · have := octal_foldl_ge rest (acc * 8 + (d - 48))
            omega
    · have hdig : ¬ (isOctalDigit d = true) := by
        unfold isOctalDigit
        simp only [Bool.and_eq_true, decide_eq_true_eq]
        exact hd
      rw [if_neg hd]
      constructor
      · intro h
        simp at h
      · rintro ⟨h1, -, -⟩
        rw [List.all_cons, Bool.and_eq_true] at h1
        exact absurd h1.1 hdig

theorem from_str_radix_octal_eq_ok (s : List Nat) (n : Nat) :
    from_str_radix_octal s = Except.ok n ↔
      (stripPlus s ≠ [] ∧ (stripPlus s).all isOctalDigit = true ∧
        n = octalSpecVal (stripPlus s) ∧ n < 2 ^ 64) := by
  cases s with
  | nil =>
    simp [from_str_radix_octal, stripPlus]
  | cons c rest =>
    rw [from_str_radix_octal]
    by_cases hc : c = 43
    · subst hc
      rw [if_pos rfl, show stripPlus (43 :: rest) = rest by simp [stripPlus]]
      cases rest with
      | nil =>
        rw [if_pos rfl]
        simp
      | cons r0 rtail =>
        rw [if_neg (List.cons_ne_nil r0 rtail)]
        rw [parseDigits_eq_ok]
        unfold octalSpecVal
        constructor
        · rintro ⟨h1, h2, h3⟩
          refine ⟨List.cons_ne_nil r0 rtail, h1, h2, ?_⟩
          rcases h3 with h3 | h3
          · exact absurd h3 (List.cons_ne_nil r0 rtail)
          · exact h3
        · rintro ⟨-, h1, h2, h3⟩
          exact ⟨h1, h2, Or.inr h3⟩
    · rw [if_neg hc, show stripPlus (c :: rest) = c :: rest by simp [stripPlus, hc],
        parseDigits_eq_ok]
      unfold octalSpecVal
      constructor
      · rintro ⟨h1, h2, h3⟩
        refine ⟨List.cons_ne_nil c rest, h1, h2, ?_⟩
        rcases h3 with h3 | h3
        · exact absurd h3 (List.cons_ne_nil c rest)
        · exact h3
      · rintro ⟨-, h1, h2, h3⟩
        exact ⟨h1, h2, Or.inr h3⟩

theorem ceilBlocks_zero : ceilBlocks 0 = 0 := rfl

theorem ceilBlocks_succ (n : Nat) (h : n ≠ 0) : ceilBlocks n = ceilBlocks (n - 512) + 1 := by
  unfold ceilBlocks
  omega

theorem ceilBlocks_ge (n : Nat) (h : n ≠ 0) : 512 ≤ 512 * ceilBlocks n := by
  unfold ceilBlocks
  omega

theorem ceilBlocks_le (n : Nat) : n ≤ 512 * ceilBlocks n := by
  unfold ceilBlocks
  omega

theorem readBody_mem (n : Nat) :
    ∀ (stream : List Nat) (w : MemoryFile), 512 * ceilBlocks n ≤ stream.length →
      readBody memoryFs.writeBlock stream w n =
        Res.ok (stream.drop (512 * ceilBlocks n), ⟨w.name, w.meta, w.data ++ stream.take n⟩) := by
  induction n using Nat.strong_induction_on with
  | _ n ih =>
    intro stream w hlen
    by_cases h0 : n = 0
    · subst h0
      rw [readBody, dif_pos rfl]
      rw [ceilBlocks_zero]
      simp
    · have hblock : 512 ≤ stream.length := le_trans (ceilBlocks_ge n h0) hlen
      have hcs : ceilBlocks n = ceilBlocks (n - 512) + 1 := ceilBlocks_succ n h0
      have hrec : 512 * ceilBlocks (n - 512) ≤ (stream.drop 512).length := by
        rw [List.length_drop]
        omega
      rw [readBody, dif_neg h0, if_neg (by omega)]
      rw [show memoryFs.writeBlock w ((stream.take 512).take (if 512 ≤ n then 512 else n)) =
          Except.ok ⟨w.name, w.meta,
            w.data ++ (stream.take 512).take (if 512 ≤ n then 512 else n)⟩ from rfl]
      dsimp only
      rw [ih (n - 512) (by omega) (stream.drop 512) _ hrec]
      have hdrop : (stream.drop 512).drop (512 * ceilBlocks (n - 512)) =
          stream.drop (512 * ceilBlocks n) := by
        rw [List.drop_drop, hcs]
        ring_nf
      have hdata : (w.data ++ (stream.take 512).take (if 512 ≤ n then 512 else n)) ++
          (stream.drop 512).take (n - 512) = w.data ++ stream.take n := by
        rw [List.append_assoc]
        by_cases hn : 512 ≤ n
        · rw [if_pos hn, List.take_take]
          have hmin : min 512 512 = 512 := by omega
          rw [hmin]
          have hsplit : stream.take n = stream.take 512 ++ (stream.drop 512).take (n - 512) := by
            rw [show n = 512 + (n - 512) by omega, List.take_add]
            congr 2
            omega
          rw [hsplit]
        · rw [if_neg hn, List.take_take]
          have hmin : min n 512 = n := by omega
          have hsub : n - 512 = 0 := by omega
          rw [hmin, hsub]
          simp
      rw [hdrop, hdata]

theorem readBody_null (n : Nat) :
    ∀ (stream : List Nat) (w : TarHeader), 512 * ceilBlocks n ≤ stream.length →
      readBody nullFs.writeBlock stream w n =
        Res.ok (stream.drop (512 * ceilBlocks n), w) := by
  induction n using Nat.strong_induction_on with
  | _ n ih =>
    intro stream w hlen
    by_cases h0 : n = 0
    · subst h0
      rw [readBody, dif_pos rfl]
      rw [ceilBlocks_zero]
      simp
    · have hblock : 512 ≤ stream.length := le_trans (ceilBlocks_ge n h0) hlen
      have hcs : ceilBlocks n = ceilBlocks (n - 512) + 1 := ceilBlocks_succ n h0
      have hrec : 512 * ceilBlocks (n - 512) ≤ (stream.drop 512).length := by
        rw [List.length_drop]
        omega
      rw [readBody, dif_neg h0, if_neg (by omega)]
      rw [show nullFs.writeBlock w ((stream.take 512).take (if 512 ≤ n then 512 else n)) =
          Except.ok w from rfl]
      dsimp only
      rw [ih (n - 512) (by omega) (stream.drop 512) w hrec]
      have hdrop : (stream.drop 512).drop (512 * ceilBlocks (n - 512)) =
          stream.drop (512 * ceilBlocks n) := by
        rw [List.drop_drop, hcs]
        ring_nf
      rw [hdrop]

theorem casted_fields_parts (h : TarHeader) (c : TarHeaderCastedFields)
    (hc : h.casted_fields = Except.ok c) :
    h.nameStr = Except.ok c.name ∧ h.unameStr = Except.ok c.uname ∧
      h.gnameStr = Except.ok c.gname ∧ h.sizeVal = Except.ok c.size ∧
      h.typeflagVal = Except.ok c.typeflag := by
  unfold TarHeader.casted_fields at hc
  cases hn : h.nameStr with
  | error e => rw [hn] at hc; simp at hc
  | ok nm =>
    rw [hn] at hc
    cases hu : h.unameStr with
    | error e => rw [hu] at hc; simp at hc
    | ok un =>
      rw [hu] at hc
      cases hg : h.gnameStr with
      | error e => rw [hg] at hc; simp at hc
      | ok gn =>
        rw [hg] at hc
        cases hs : h.sizeVal with
        | error e => rw [hs] at hc; simp at hc
        | ok sz =>
          rw [hs] at hc
          cases ht : h.typeflagVal with
          | error e => rw [ht] at hc; simp at hc
          | ok tf =>
            rw [ht] at hc
            simp only at hc
            injection hc with hc
            cases hc
            exact ⟨rfl, rfl, rfl, rfl, rfl⟩

theorem parseLoop_short {σ ω : Type} (fs : FSImpl σ ω) (stream : List Nat) (k : Nat)
    (st : σ) (h : stream.length < 512) : parseLoop fs stream k st = (st, Res.crashed) := by
  rw [parseLoop, dif_pos h]

theorem parseLoop_zero_step {σ ω : Type} (fs : FSImpl σ ω) (rest : List Nat) (k : Nat)
    (st : σ) :
    parseLoop fs (List.replicate 512 0 ++ rest) k st =
      if k + 1 = 2 then (st, Res.ok ()) else parseLoop fs rest (k + 1) st := by
  have h1 : ¬ ((List.replicate 512 0 ++ rest).length < 512) := by simp
  have h2 : (List.replicate 512 0 ++ rest).take 512 = List.replicate 512 0 := by
    rw [List.take_append_of_le_length (by simp)]
    simp
  have h3 : (List.replicate 512 0 ++ rest).drop 512 = rest := by
    have hd := List.drop_left (List.replicate 512 (0 : Nat)) rest
    simpa using hd
  conv_lhs => rw [parseLoop]
  rw [dif_neg h1, h2, h3, if_pos rfl]

theorem parseLoop_mem_entry_step (block rest : List Nat) (c : TarHeaderCastedFields)
    (k : Nat) (st : List MemoryFile)
    (hlen : block.length = 512) (hnz : block ≠ List.replicate 512 0)
    (hm : (headerFromBlock block).validate_magic = Except.ok ())
    (hc : (headerFromBlock block).casted_fields = Except.ok c)
    (hrest : 512 * ceilBlocks c.size ≤ rest.length) :
    parseLoop memoryFs (block ++ rest) k st =
      parseLoop memoryFs (rest.drop (512 * ceilBlocks c.size)) k
        (st ++ [⟨c.name, headerFromBlock block, rest.take c.size⟩]) := by
  obtain ⟨-, -, -, hs, -⟩ := casted_fields_parts _ _ hc
  have h1 : ¬ ((block ++ rest).length < 512) := by simp [hlen]
  have h2 : (block ++ rest).take 512 = block := by
    rw [← hlen, List.take_left]
  have h3 : (block ++ rest).drop 512 = rest := by
    rw [← hlen, List.drop_left]
  conv_lhs => rw [parseLoop]
  rw [dif_neg h1, h2, h3, if_neg hnz, hm]
  dsimp only
  rw [hc]
  dsimp only
  rw [show memoryFs.openEntry (headerFromBlock block) c =
      Except.ok ⟨c.name, headerFromBlock block, []⟩ from rfl]
  dsimp only
  rw [hs]
  dsimp only
  rw [readBody_mem c.size rest ⟨c.name, headerFromBlock block, []⟩ hrest]
  dsimp only
  rw [show memoryFs.save st ⟨c.name, headerFromBlock block, [] ++ rest.take c.size⟩ =
      Except.ok (st ++ [⟨c.name, headerFromBlock block, [] ++ rest.take c.size⟩]) from rfl]
  dsimp only
  rw [List.nil_append]

theorem parseLoop_null_entry_step (block rest : List Nat) (c : TarHeaderCastedFields)
    (k : Nat) (st : List TarHeader)
    (hlen : block.length = 512) (hnz : block ≠ List.replicate 512 0)
    (hm : (headerFromBlock block).validate_magic = Except.ok ())
    (hc : (headerFromBlock block).casted_fields = Except.ok c)
    (hrest : 512 * ceilBlocks c.size ≤ rest.length) :
    parseLoop nullFs (block ++ rest) k st =
      parseLoop nullFs (rest.drop (512 * ceilBlocks c.size)) k
        (st ++ [headerFromBlock block]) := by
  obtain ⟨-, -, -, hs, -⟩ := casted_fields_parts _ _ hc
  have h1 : ¬ ((block ++ rest).length < 512) := by simp [hlen]
  have h2 : (block ++ rest).take 512 = block := by
    rw [← hlen, List.take_left]
  have h3 : (block ++ rest).drop 512 = rest := by
    rw [← hlen, List.drop_left]
  conv_lhs => rw [parseLoop]
  rw [dif_neg h1, h2, h3, if_neg hnz, hm]
  dsimp only
  rw [hc]
  dsimp only
  rw [show nullFs.openEntry (headerFromBlock block) c =
      Except.ok (headerFromBlock block) from rfl]
  dsimp only
  rw [hs]
  dsimp only
  rw [readBody_null c.size rest (headerFromBlock block) hrest]
  dsimp only
  rw [show nullFs.save st (headerFromBlock block) =
      Except.ok (st ++ [headerFromBlock block]) from rfl]

theorem parseLoop_bad_magic {σ ω : Type} (fs : FSImpl σ ω) (block rest : List Nat)
    (k : Nat) (st : σ)
    (hlen : block.length = 512) (hnz : block ≠ List.replicate 512 0)
    (hm : ¬ ((headerFromBlock block).magic = [117, 115, 116, 97, 114, 32] ∨
      (headerFromBlock block).magic = [117, 115, 116, 97, 114, 0])) :
    parseLoop fs (block ++ rest) k st = (st, Res.err "invalid magic bytes") := by
  have h1 : ¬ ((block ++ rest).length < 512) := by simp [hlen]
  have h2 : (block ++ rest).take 512 = block := by
    rw [← hlen, List.take_left]
  conv_lhs => rw [parseLoop]
  rw [dif_neg h1, h2, if_neg hnz,
    show (headerFromBlock block).validate_magic = Except.error "invalid magic bytes" by
      rw [TarHeader.validate_magic, if_neg hm]]

theorem parseLoop_null_valid (stream : List Nat) (names : List (List Nat))
    (hva : ValidArchive stream names) :
    ∀ st : List TarHeader, ∃ hdrs : List TarHeader,
      parseLoop nullFs stream 0 st = (st ++ hdrs, Res.ok ()) ∧
        expectNames hdrs = Res.ok names := by
  induction hva with
  | sentinel =>
    intro st
    refine ⟨[], ?_, rfl⟩
    have hsplit : List.replicate 1024 (0 : Nat) = List.replicate 512 0 ++ List.replicate 512 0 := by
      rw [← List.replicate_add]
    rw [hsplit, parseLoop_zero_step, if_neg (by omega),
      show (List.replicate 512 (0 : Nat)) = List.replicate 512 0 ++ [] by simp,
      parseLoop_zero_step]
    simp
  | entry block body rest nms c hlen hnz hm hc hbody _ ih =>
    intro st
    have hrest : 512 * ceilBlocks c.size ≤ (body ++ rest).length := by
      rw [List.length_append, hbody]
      omega
    have hdrop : (body ++ rest).drop (512 * ceilBlocks c.size) = rest := by
      rw [← hbody, List.drop_left]
    obtain ⟨hdrs, hpl, hexp⟩ := ih (st ++ [headerFromBlock block])
    refine ⟨headerFromBlock block :: hdrs, ?_, ?_⟩
    · rw [parseLoop_null_entry_step block (body ++ rest) c 0 st hlen hnz hm hc hrest, hdrop,
        hpl]
      simp
    · obtain ⟨hn, -, -, -, -⟩ := casted_fields_parts _ _ hc
      rw [expectNames, hn]
      dsimp only
      rw [hexp]

theorem ascii_of_strip_octal (tw : List Nat)
    (h : (stripPlus tw).all isOctalDigit = true) : ∀ b ∈ tw, b ≤ 127 := by
  cases tw with
  | nil =>
    intro b hb
    simp at hb
  | cons c r =>
    by_cases hc : c = 43
    · subst hc
      rw [show stripPlus (43 :: r) = r by simp [stripPlus]] at h
      intro b hb
      rcases List.mem_cons.mp hb with hb | hb
      · omega
      · have hx := (List.all_eq_true.mp h) b hb
        unfold isOctalDigit at hx
        simp only [Bool.and_eq_true, decide_eq_true_eq] at hx
        omega
    · rw [show stripPlus (c :: r) = c :: r by simp [stripPlus, hc]] at h
      intro b hb
      have hx := (List.all_eq_true.mp h) b hb
      unfold isOctalDigit at hx
      simp only [Bool.and_eq_true, decide_eq_true_eq] at hx
      omega

theorem typeflag_bridge (h : TarHeader) :
    h.typeflagVal = match typeflagTable h.typeflag with
      | some t => Except.ok t
      | none => Except.error "invalid typeflag header" := by
  unfold TarHeader.typeflagVal
  split <;> simp_all [typeflagTable]

/-- C1: the claim says the decode loop resets the consecutive-zero-block
counter on every non-zero block, so that a lone zero block, a valid entry,
and a later lone zero block are NOT treated as the end-of-archive sentinel.
The code never resets `empty_blocks`: this theorem evaluates the decoder on
exactly that stream (zero block, valid size-0 header `hdrA`, zero block)
and shows it terminates successfully, treating the two NON-consecutive zero
blocks as the sentinel — the code contradicts the claimed invariant. -/
theorem c1_nonconsecutive_zero_blocks_end_archive :
    parse_tar memoryFs (List.replicate 512 0 ++ (hdrA ++ List.replicate 512 0)) [] =
      ([⟨[97], headerFromBlock hdrA, []⟩], Res.ok ()) := by
  rw [parse_tar, parseLoop_zero_step, if_neg (by omega),
    parseLoop_mem_entry_step hdrA (List.replicate 512 0) castedA 1 []
      (by decide) (by decide) (by decide) (by decide) (by decide)]
  norm_num [castedA, ceilBlocks]
  rw [show List.replicate 512 (0 : Nat) = List.replicate 512 0 ++ [] by simp,
    parseLoop_zero_step, if_pos rfl]

/-- C2: for an entry of declared size `n`, the body loop reads exactly
`ceil(n / 512)` 512-byte blocks and appends exactly the first
`min(512, remaining)` bytes of each to the writer, so the delivered bytes
are precisely the first `n` bytes of the body region and the stream
position advances by exactly `512 * ceil(n / 512)`. -/
theorem c2_body_block_streaming (n : Nat) (stream : List Nat) (w : MemoryFile)
    (h : 512 * ceilBlocks n ≤ stream.length) :
    readBody memoryFs.writeBlock stream w n =
      Res.ok (stream.drop (512 * ceilBlocks n),
        ⟨w.name, w.meta, w.data ++ stream.take n⟩) :=
  readBody_mem n stream w h

theorem c2_body_block_streaming_witness :
    (readBody memoryFs.writeBlock (List.replicate 1024 7) ⟨[], headerFromBlock hdrA, []⟩ 513 =
      Res.ok ((List.replicate 1024 7).drop (512 * ceilBlocks 513),
        ⟨[], headerFromBlock hdrA, [] ++ (List.replicate 1024 7).take 513⟩)) ∧
    (readBody memoryFs.writeBlock (List.replicate 512 7) ⟨[], headerFromBlock hdrA, []⟩ 512 =
      Res.ok ((List.replicate 512 7).drop (512 * ceilBlocks 512),
        ⟨[], headerFromBlock hdrA, [] ++ (List.replicate 512 7).take 512⟩)) ∧
    (readBody memoryFs.writeBlock (List.replicate 512 7) ⟨[], headerFromBlock hdrA, []⟩ 0 =
      Res.ok ((List.replicate 512 7).drop (512 * ceilBlocks 0),
        ⟨[], headerFromBlock hdrA, [] ++ (List.replicate 512 7).take 0⟩)) :=
  ⟨c2_body_block_streaming 513 (List.replicate 1024 7) ⟨[], headerFromBlock hdrA, []⟩ (by decide),
   c2_body_block_streaming 512 (List.replicate 512 7) ⟨[], headerFromBlock hdrA, []⟩ (by decide),
   c2_body_block_streaming 0 (List.replicate 512 7) ⟨[], headerFromBlock hdrA, []⟩ (by decide)⟩

/-- C3: a stream of exactly two zero blocks decodes successfully with zero
entries committed (first conjunct).  The claim further says a single zero
block followed by end-of-stream returns an `IoError`; the code instead
`.unwrap()`s the failed `read_exact`, i.e. it panics (crashes) rather than
returning an error value (second conjunct) — though it indeed never
succeeds or pads. -/
theorem c3_truncated_archive :
    parse_tar memoryFs (List.replicate 1024 0) [] = ([], Res.ok ()) ∧
    parse_tar memoryFs (List.replicate 512 0) [] = ([], Res.crashed) := by
  constructor
  · rw [parse_tar,
      show List.replicate 1024 (0 : Nat) = List.replicate 512 0 ++ List.replicate 512 0 by
        rw [← List.replicate_add],
      parseLoop_zero_step, if_neg (by omega),
      show List.replicate 512 (0 : Nat) = List.replicate 512 0 ++ [] by simp,
      parseLoop_zero_step, if_pos rfl]
  · rw [parse_tar,
      show List.replicate 512 (0 : Nat) = List.replicate 512 0 ++ [] by simp,
      parseLoop_zero_step, if_neg (by omega),
      parseLoop_short memoryFs [] 1 [] (by simp)]

/-- C4: the claim says a destination commit (`save`) failure is reported as
a returned entry-level error.  The code `.unwrap()`s the `save` result:
with a destination whose commit always fails, decoding one valid size-0
entry crashes (panics) instead of returning an error value, and no state
is committed. -/
theorem c4_commit_failure_crashes :
    parse_tar errSaveFs (hdrA ++ List.replicate 1024 0) [] = ([], Res.crashed) := by
  have hlen : hdrA.length = 512 := by decide
  have h1 : ¬ ((hdrA ++ List.replicate 1024 0).length < 512) := by
    simp [hlen]
  have h2 : (hdrA ++ List.replicate 1024 0).take 512 = hdrA := by
    rw [← hlen, List.take_left]
  have h3 : (hdrA ++ List.replicate 1024 0).drop 512 = List.replicate 1024 0 := by
    rw [← hlen, List.drop_left]
  rw [parse_tar]
  conv_lhs => rw [parseLoop]
  rw [dif_neg h1, h2, h3, if_neg (by decide),
    show (headerFromBlock hdrA).validate_magic = Except.ok () by decide]
  dsimp only
  rw [show (headerFromBlock hdrA).casted_fields = Except.ok castedA by decide]
  dsimp only
  rw [show errSaveFs.openEntry (headerFromBlock hdrA) castedA =
      Except.ok ⟨castedA.name, headerFromBlock hdrA, []⟩ from rfl]
  dsimp only
  rw [show (headerFromBlock hdrA).sizeVal = Except.ok 0 by decide]
  dsimp only
  rw [readBody, dif_pos rfl]
  dsimp only
  rw [show errSaveFs.save [] ⟨castedA.name, headerFromBlock hdrA, []⟩ =
      Except.error "save failed" from rfl]

/-- C5: `validate_magic` accepts exactly the two 6-byte magics
`b"ustar "` and `b"ustar\0"` and rejects everything else with the
invalid-magic error (first conjunct); and for any destination, a non-zero
header block whose magic is neither variant makes the decode loop return
that error immediately with the destination state untouched — the
destination is never opened for that entry and no later entry is attempted
(second conjunct, which holds uniformly in the destination `fs`). -/
theorem c5_magic_validation :
    (∀ h : TarHeader,
      (h.validate_magic = Except.ok () ↔
        (h.magic = [117, 115, 116, 97, 114, 32] ∨ h.magic = [117, 115, 116, 97, 114, 0])) ∧
      (¬ (h.magic = [117, 115, 116, 97, 114, 32] ∨ h.magic = [117, 115, 116, 97, 114, 0]) →
        h.validate_magic = Except.error "invalid magic bytes")) ∧
    (∀ (σ ω : Type) (fs : FSImpl σ ω) (block rest : List Nat) (k : Nat) (st : σ),
      block.length = 512 → block ≠ List.replicate 512 0 →
      ¬ ((headerFromBlock block).magic = [117, 115, 116, 97, 114, 32] ∨
        (headerFromBlock block).magic = [117, 115, 116, 97, 114, 0]) →
      parseLoop fs (block ++ rest) k st = (st, Res.err "invalid magic bytes")) := by
  constructor
  · intro h
    constructor
    · rw [TarHeader.validate_magic]
      by_cases hm : h.magic = [117, 115, 116, 97, 114, 32] ∨ h.magic = [117, 115, 116, 97, 114, 0]
      · rw [if_pos hm]
        simp [hm]
      · rw [if_neg hm]
        simp [hm]
    · intro hm
      rw [TarHeader.validate_magic, if_neg hm]
  · intro σ ω fs block rest k st hlen hnz hm
    exact parseLoop_bad_magic fs block rest k st hlen hnz hm

theorem c5_magic_validation_witness :
    parseLoop memoryFs (List.replicate 512 1 ++ []) 0 ([] : List MemoryFile) =
      ([], Res.err "invalid magic bytes") ∧
    (headerFromBlock hdrA).validate_magic = Except.ok () :=
  ⟨c5_magic_validation.2 (List MemoryFile) MemoryFile memoryFs (List.replicate 512 1) [] 0 []
      (by decide) (by decide) (by decide),
   ((c5_magic_validation.1 (headerFromBlock hdrA)).1).mpr (by decide)⟩

/-- C6: the 12-byte size field decodes by parsing its NUL-terminated text
as a base-8 unsigned integer: `sizeVal` succeeds with `n` exactly when the
bytes before the first NUL (after Rust's optional leading `'+'`) are a
non-empty run of ASCII octal digits whose base-8 value is `n` (below
`2^64`); and any size field starting with a high-bit byte (as the GNU
binary-size extension would) is a decode error, never a binary size. -/
theorem c6_size_field_octal (h : TarHeader) :
    (∀ n : Nat, h.sizeVal = Except.ok n ↔
      (h.size.contains 0 = true ∧
        stripPlus (h.size.takeWhile (fun b => b != 0)) ≠ [] ∧
        (stripPlus (h.size.takeWhile (fun b => b != 0))).all isOctalDigit = true ∧
        n = octalSpecVal (stripPlus (h.size.takeWhile (fun b => b != 0))) ∧
        n < 2 ^ 64)) ∧
    (∀ b bs, h.size = b :: bs → 128 ≤ b → ∃ e, h.sizeVal = Except.error e) := by
  constructor
  · intro n
    rw [TarHeader.sizeVal]
    cases hsl : slice_to_str h.size with
    | error e =>
      dsimp only
      constructor
      · intro hx
        simp at hx
      · rintro ⟨hcont, hne, hall, hval, hlt⟩
        exfalso
        have hvalid : utf8Valid (h.size.takeWhile (fun b => b != 0)) = true :=
          utf8Valid_of_ascii _ (ascii_of_strip_octal _ hall)
        have hok : slice_to_str h.size = Except.ok (h.size.takeWhile (fun b => b != 0)) :=
          (slice_to_str_eq_ok _ _).mpr ⟨hcont, rfl, hvalid⟩
        rw [hsl] at hok
        simp at hok
    | ok s =>
      dsimp only
      obtain ⟨hcont, hseq, hvalid⟩ := (slice_to_str_eq_ok _ _).mp hsl
      subst hseq
      rw [from_str_radix_octal_eq_ok]
      constructor
      · rintro ⟨h1, h2, h3, h4⟩
        exact ⟨hcont, h1, h2, h3, h4⟩
      · rintro ⟨-, h1, h2, h3, h4⟩
        exact ⟨h1, h2, h3, h4⟩
  · intro b bs hbs hb
    rw [TarHeader.sizeVal]
    cases hsl : slice_to_str h.size with
    | error e =>
      exact ⟨e, rfl⟩
    | ok s =>
      dsimp only
      obtain ⟨hcont, hseq, hvalid⟩ := (slice_to_str_eq_ok _ _).mp hsl
      rw [hbs, List.takeWhile_cons, if_pos (by simp; omega)] at hseq
      subst hseq
      rw [from_str_radix_octal, if_neg (by omega), parseDigits, if_neg (by omega)]
      exact ⟨_, rfl⟩

theorem c6_size_field_octal_witness :
    (headerFromBlock hdrB512).sizeVal = Except.ok 512 ∧
    (∃ e, (headerFromBlock hdrHi).sizeVal = Except.error e) :=
  ⟨((c6_size_field_octal (headerFromBlock hdrB512)).1 512).mpr (by decide),
   (c6_size_field_octal (headerFromBlock hdrHi)).2 128 (List.replicate 11 0)
      (by decide) (by decide)⟩

/-- C7: the type-flag byte maps to the entry-type enumeration exactly per
the spec's table — `typeflagVal` succeeds with `t` precisely when the table
(0 and `'0'` to RegularFile, `'1'..'7'` to the seven further kinds in
order, `'x'`/`'g'` to the extended-header kinds) maps the byte to `t`, and
any unmapped byte yields the invalid-typeflag error. -/
theorem c7_typeflag_mapping (h : TarHeader) :
    (∀ t : TarFileType, h.typeflagVal = Except.ok t ↔ typeflagTable h.typeflag = some t) ∧
    (typeflagTable h.typeflag = none →
      h.typeflagVal = Except.error "invalid typeflag header") := by
  have hb := typeflag_bridge h
  constructor
  · intro t
    rw [hb]
    cases htb : typeflagTable h.typeflag <;> simp
  · intro hnone
    rw [hb, hnone]

theorem c7_typeflag_mapping_witness :
    (headerFromBlock hdrB512).typeflagVal = Except.ok TarFileType.RegularFile ∧
    (headerFromBlock hdrA).typeflagVal = Except.ok TarFileType.RegularFile ∧
    (headerFromBlock (List.replicate 512 1)).typeflagVal =
      Except.error "invalid typeflag header" :=
  ⟨((c7_typeflag_mapping (headerFromBlock hdrB512)).1 TarFileType.RegularFile).mpr (by decide),
   ((c7_typeflag_mapping (headerFromBlock hdrA)).1 TarFileType.RegularFile).mpr (by decide),
   (c7_typeflag_mapping (headerFromBlock (List.replicate 512 1))).2 (by decide)⟩

/-- C8: each text field (name, uname, gname) decodes to exactly the bytes
before the first NUL, provided a NUL exists in the fixed-width field and
those bytes are valid text (UTF-8): the three iffs characterize success;
decoding fails when no NUL occurs, or when the pre-NUL bytes are invalid
text; and the result ignores everything after the first NUL. -/
theorem c8_text_fields (h : TarHeader) :
    (∀ s, h.nameStr = Except.ok s ↔
      (h.name.contains 0 = true ∧ s = h.name.takeWhile (fun b => b != 0) ∧
        utf8Valid s = true)) ∧
    (∀ s, h.unameStr = Except.ok s ↔
      (h.uname.contains 0 = true ∧ s = h.uname.takeWhile (fun b => b != 0) ∧
        utf8Valid s = true)) ∧
    (∀ s, h.gnameStr = Except.ok s ↔
      (h.gname.contains 0 = true ∧ s = h.gname.takeWhile (fun b => b != 0) ∧
        utf8Valid s = true)) ∧
    (h.name.contains 0 = false → h.nameStr = Except.error "biem") ∧
    (h.name.contains 0 = true → utf8Valid (h.name.takeWhile (fun b => b != 0)) = false →
      h.nameStr = Except.error "invalid utf-8 sequence") ∧
    (∀ pre r r', slice_to_str (pre ++ 0 :: r) = slice_to_str (pre ++ 0 :: r')) :=
  ⟨fun s => slice_to_str_eq_ok h.name s,
   fun s => slice_to_str_eq_ok h.uname s,
   fun s => slice_to_str_eq_ok h.gname s,
   fun hc => slice_to_str_no_nul h.name hc,
   fun hc hv => slice_to_str_invalid_text h.name hc hv,
   slice_to_str_after_nul⟩

theorem c8_text_fields_witness :
    (headerFromBlock hdrA).nameStr = Except.ok [97] ∧
    (headerFromBlock (List.replicate 512 1)).nameStr = Except.error "biem" :=
  ⟨((c8_text_fields (headerFromBlock hdrA)).1 [97]).mpr (by decide),
   (c8_text_fields (headerFromBlock (List.replicate 512 1))).2.2.2.1 (by decide)⟩

/-- C9: for every valid archive stream (a sequence of well-formed entries
closed by the two-zero-block sentinel), `list_files_in_tar` fully decodes
the archive into the discarding `NullFileSystem` and yields exactly the
entry names in the order the entries appear in the byte stream. -/
theorem c9_enumeration (stream : List Nat) (names : List (List Nat))
    (hva : ValidArchive stream names) : list_files_in_tar stream = Res.ok names := by
  obtain ⟨hdrs, hpl, hexp⟩ := parseLoop_null_valid stream names hva []
  rw [list_files_in_tar, parse_tar, hpl]
  dsimp only
  rw [show ([] : List TarHeader) ++ hdrs = hdrs from rfl, hexp]

theorem c9_enumeration_witness :
    list_files_in_tar (hdrA ++ ([] ++ List.replicate 1024 0)) = Res.ok [[97]] :=
  c9_enumeration _ _
    (ValidArchive.entry hdrA [] (List.replicate 1024 0) [] castedA
      (by decide) (by decide) (by decide) (by decide) (by decide) ValidArchive.sentinel)

/-- C10: an all-zero 512-byte block read as one of an entry's declared body
blocks is ordinary content: for a valid header of declared size `n`, a body
of `512 * ceil(n / 512)` zero bytes delivers exactly `n` zero bytes to the
committed entry, the zero-block counter `k` is unchanged, and the loop
continues at the rest of the stream — body zero blocks never advance the
end-of-archive sentinel. -/
theorem c10_zero_body_is_content (block rest : List Nat) (c : TarHeaderCastedFields)
    (k : Nat) (st : List MemoryFile)
    (hlen : block.length = 512) (hnz : block ≠ List.replicate 512 0)
    (hm : (headerFromBlock block).validate_magic = Except.ok ())
    (hc : (headerFromBlock block).casted_fields = Except.ok c) :
    parseLoop memoryFs (block ++ (List.replicate (512 * ceilBlocks c.size) 0 ++ rest)) k st =
      parseLoop memoryFs rest k
        (st ++ [⟨c.name, headerFromBlock block, List.replicate c.size 0⟩]) := by
  have hrest : 512 * ceilBlocks c.size ≤
      (List.replicate (512 * ceilBlocks c.size) (0 : Nat) ++ rest).length := by
    simp
  have hdrop : (List.replicate (512 * ceilBlocks c.size) (0 : Nat) ++ rest).drop
      (512 * ceilBlocks c.size) = rest := by
    have hd := List.drop_left (List.replicate (512 * ceilBlocks c.size) (0 : Nat)) rest
    simpa using hd
  have htake : (List.replicate (512 * ceilBlocks c.size) (0 : Nat) ++ rest).take c.size =
      List.replicate c.size 0 := by
    rw [List.take_append_of_le_length (by simpa using ceilBlocks_le c.size),
      List.take_replicate]
    congr 1
    have hle := ceilBlocks_le c.size
    omega
  rw [parseLoop_mem_entry_step block _ c k st hlen hnz hm hc hrest, hdrop, htake]

theorem c10_zero_body_is_content_witness :
    parseLoop memoryFs
        (hdrB512 ++ (List.replicate (512 * ceilBlocks castedB.size) 0 ++
          List.replicate 1024 0)) 0 [] =
      parseLoop memoryFs (List.replicate 1024 0) 0
        ([] ++ [⟨castedB.name, headerFromBlock hdrB512, List.replicate castedB.size 0⟩]) :=
  c10_zero_body_is_content hdrB512 (List.replicate 1024 0) castedB 0 []
    (by decide) (by decide) (by decide) (by decide)
